import Mathlib

/-!
Verification of `jobs_search.py`: a daily job-search pipeline that builds
queries per role, calls a search API, deduplicates and caps results per
role, renders an HTML report and sends it by email.

The Python source is shallowly embedded below.  Effectful parts (HTTP,
SMTP) are modelled by explicit outcome values and action traces; Python
values that may be `None` become `Option`; a Python `TypeError` raised by
an expression is modelled by that expression returning `none` at the
point where the exception would escape.
-/

namespace JobsSearch

/-- One normalized search hit, as produced by `extract_items`
(`{"title": title, "link": link, "snippet": snippet}`): `title` and
`link` may be `None`; `snippet` is always a string (it is defaulted to
`""` during extraction). -/
structure ResultItem where
  title : Option String
  link : Option String
  snippet : String
deriving DecidableEq, Repr

/-- Outcome of one `google_search` call for one query: `failure` models
any exception (timeout, transport error, `raise_for_status`, JSON
parsing), `success items` a parsed body already passed through
`extract_items`. -/
inductive QueryRes where
  | failure
  | success (items : List ResultItem)
deriving DecidableEq, Repr

/-- Whether a query outcome is a success (no exception was raised). -/
def isSucc : QueryRes → Bool
  | QueryRes.failure => false
  | QueryRes.success _ => true

/-- Per-role result cap, `MAX_PER_ROLE = 8` in the source. -/
def MAX_PER_ROLE : Nat := 8

/-- The fixed `ROLES` list of the source. -/
def ROLES : List String :=
  ["Frontend Developer",
   "Backend Developer",
   "MERN Full Stack Developer",
   "Salesforce Developer"]

/-- Dedup key of line 125 of the source:
`key = it.get("link") or (it.get("title","") + it.get("snippet",""))`.
Python `or` falls through when the link is `None` or the empty string.
The dictionary built by `extract_items` always holds the keys `title`
and `snippet`, so `it.get("title","")` returns the stored value even
when that value is `None`; in that case `None + snippet` raises a
`TypeError`, modelled here by `none`. -/
def dedupKey (it : ResultItem) : Option String :=
  match it.link with
  | some l => if l = "" then it.title.map (fun t => t ++ it.snippet) else some l
  | none => it.title.map (fun t => t ++ it.snippet)

/-- The dedup key as claim C4 words it: the link when present and
non-empty, else the concatenation of title and snippet with an absent
title read as the empty string.  Stated for comparison with the code's
`dedupKey`. -/
def claimDedupKey (it : ResultItem) : String :=
  match it.link with
  | some l => if l = "" then it.title.getD "" ++ it.snippet else l
  | none => it.title.getD "" ++ it.snippet

/-- Inner loop of `main` (lines 124-131): walk the extracted items of
one query, skipping items whose key was already seen, appending fresh
ones to `collected` and their keys to `seen`, and stopping (`break`) as
soon as `collected` reaches `MAX_PER_ROLE`.  Returns `none` when the
key computation raises (see `dedupKey`). -/
def stepItems : List String → List ResultItem → List ResultItem →
    Option (List String × List ResultItem)
  | seen, collected, [] => some (seen, collected)
  | seen, collected, it :: rest =>
    match dedupKey it with
    | none => none
    | some key =>
      if key ∈ seen then stepItems seen collected rest
      else
        let seen1 := seen ++ [key]
        let collected1 := collected ++ [it]
        if MAX_PER_ROLE ≤ collected1.length then some (seen1, collected1)
        else stepItems seen1 collected1 rest

/-- Outer per-role loop of `main` (lines 117-134) over the outcomes of
the role's queries: a failed query is logged and skipped (`continue`), a
successful one has its items folded in by `stepItems`, and the loop
stops (`break`) once the cap is reached.  The `time.sleep(0.4)` between
queries has no effect on the data and is not modelled. -/
def aggregate : List String → List ResultItem → List QueryRes →
    Option (List String × List ResultItem)
  | seen, collected, [] => some (seen, collected)
  | seen, collected, QueryRes.failure :: rest => aggregate seen collected rest
  | seen, collected, QueryRes.success items :: rest =>
    match stepItems seen collected items with
    | none => none
    | some (seen1, collected1) =>
      if MAX_PER_ROLE ≤ collected1.length then some (seen1, collected1)
      else aggregate seen1 collected1 rest

/-- A role's aggregation starting from the empty `seen = {}` and
`collected = []` of lines 115-116, keeping only the collected list. -/
def aggregateRole (qs : List QueryRes) : Option (List ResultItem) :=
  (aggregate [] [] qs).map (fun p => p.2)

/-- The stream of items a role's loop may look at: the items of the
successful queries, in query order then item order. -/
def stream : List QueryRes → List ResultItem
  | [] => []
  | QueryRes.failure :: rest => stream rest
  | QueryRes.success items :: rest => items ++ stream rest

/-- The dedup keys of a list of items, in order, dropping items whose
key computation would raise. -/
def keysOf (l : List ResultItem) : List String :=
  l.filterMap dedupKey

/-- Query builder of `main` (lines 105-114): one query per configured
target organization — a `site:` query when the entry contains a dot,
else a quoted-phrase query — followed by the three generic queries. -/
def buildQueries (role : String) (tops : List String) : List String :=
  let queries : List String := []
  let queries :=
    if tops.isEmpty then queries
    else
      tops.foldl (fun qs d =>
        if d.contains '.' then qs ++ [role ++ " site:" ++ d]
        else qs ++ [role ++ " \"" ++ d ++ "\""]) queries
  let queries := queries ++ [role ++ " startup hiring"]
  let queries := queries ++ [role ++ " \"we are hiring\""]
  queries ++ [role ++ " \"hiring now\""]

/-- One raw item of the search API's JSON `items` array: each of the
three fields may be absent. -/
structure RawItem where
  title : Option String
  link : Option String
  snippet : Option String
deriving DecidableEq, Repr

/-- A parsed search response body: the `items` array field may be
absent (`search_json.get("items", [])` in the source). -/
structure SearchJson where
  items : Option (List RawItem)
deriving DecidableEq, Repr

/-- Normalization of one raw item inside `extract_items` (lines 57-60):
`title` and `link` are taken as-is (possibly absent), `snippet`
defaults to the empty string when absent. -/
def extractItem (it : RawItem) : ResultItem :=
  { title := it.title, link := it.link, snippet := it.snippet.getD "" }

/-- The source's `extract_items` (lines 54-61): iterate the `items`
array, defaulting to the empty array when the field is absent, and
normalize each entry. -/
def extract_items (j : SearchJson) : List ResultItem :=
  (j.items.getD []).map extractItem

/-- The per-character effect of Python's `html.escape` with its
default `quote=True`. -/
def escapeChar (c : Char) : String :=
  if c = '&' then "&amp;"
  else if c = '<' then "&lt;"
  else if c = '>' then "&gt;"
  else if c = '"' then "&quot;"
  else if c = '\'' then "&#x27;"
  else String.singleton c

/-- Python's `html.escape(s)` with its default `quote=True`: it
sequentially replaces `&`, `<`, `>`, `"` and the apostrophe, in that
order.  Because each pattern is a single character, the five patterns
are pairwise distinct, `&` is replaced first, and no replacement text
contains a character replaced later, the sequential replacement equals
this single character-wise pass. -/
def htmlEscape (s : String) : String :=
  String.join (s.data.map escapeChar)

/-- The anchor-text value of line 72, `it['title'] or it['link']`
before escaping: Python `or` falls through when the title is `None` or
empty; the result is `none` exactly when `html.escape` would then be
applied to `None` and raise. -/
def anchorVal (it : ResultItem) : Option String :=
  match it.title with
  | some t => if t = "" then it.link else some t
  | none => it.link

/-- The raw href text of line 75: the f-string renders a `None` link as
the string `None`. -/
def linkRaw (it : ResultItem) : String :=
  match it.link with
  | some l => l
  | none => "None"

/-- One `<li>` entry of lines 71-75: escaped anchor text, raw link as
href, escaped snippet; `none` models the `TypeError` of
`html.escape(None)` when both title and link are missing. -/
def renderItem (it : ResultItem) : Option String :=
  match anchorVal it with
  | none => none
  | some text =>
    some ("<li><a href='" ++ linkRaw it ++ "'>" ++ htmlEscape text ++
      "</a><br/><small>" ++ htmlEscape it.snippet ++ "</small></li>")

/-- The `<li>` entry as claim C7 words it: the anchor text is the
escaped title whenever the title is present (even empty), the escaped
link only when the title is absent.  Stated for comparison with the
code's `renderItem`. -/
def claimRenderItem (it : ResultItem) : Option String :=
  match (match it.title with
         | some t => some (htmlEscape t)
         | none => it.link.map htmlEscape) with
  | none => none
  | some text =>
    some ("<li><a href='" ++ linkRaw it ++ "'>" ++ text ++
      "</a><br/><small>" ++ htmlEscape it.snippet ++ "</small></li>")

/-- One role section of `build_html_report` (lines 67-76): subheading
with escaped role name and result count, then the list — a single
"No results found." entry when the item list is empty, else one entry
per item. -/
def renderRole (role : String) (items : List ResultItem) : Option String :=
  let head := "<h3>" ++ htmlEscape role ++ " — " ++ toString items.length ++
    " results</h3>\n<ul>"
  let head := head ++ (if items.isEmpty then "<li>No results found.</li>" else "")
  match items.mapM renderItem with
  | none => none
  | some entries => some (head ++ String.join entries ++ "</ul>")

/-- The source's `build_html_report` (lines 63-78) with the timestamp
header text passed in as `now` (the `datetime.now()` formatting is
environment input, not logic).  Role sections follow the insertion
order of the `results` dictionary, modelled as an association list. -/
def build_html_report (now : String)
    (results : List (String × List ResultItem)) : Option String :=
  let header := "<h2>Job search results — " ++ now ++ "</h2>"
  match results.mapM (fun rp => renderRole rp.1 rp.2) with
  | none => none
  | some sections =>
    some ("<html><body>" ++ header ++ String.join sections ++
      "<hr/><p>Generated automatically.</p>" ++ "</body></html>")

/-- One observable action of the SMTP session of `send_email`
(lines 89-98). -/
inductive SmtpAction where
  | connect (host : String) (port : Nat) (timeout : Nat)
  | ehlo
  | starttls
  | login (user : String) (pass : String)
  | sendmail (sender : String) (recipients : List String)
  | quit
deriving DecidableEq, Repr

/-- The body of the `try` block of `send_email`: `ehlo`, a STARTTLS
upgrade plus second `ehlo` exactly when the port is 587, `login`, then
`sendmail` to the single-recipient list `[RECIPIENT]`. -/
def smtpBody (port : Nat) (user pass sender recipient : String) :
    List SmtpAction :=
  [SmtpAction.ehlo] ++
  (if port = 587 then [SmtpAction.starttls, SmtpAction.ehlo] else []) ++
  [SmtpAction.login user pass, SmtpAction.sendmail sender [recipient]]

/-- Run a list of SMTP actions in order against a fault model
`failsAt`: each attempted action is recorded in the trace; the first
failing action aborts the rest and is returned as the raised
exception. -/
def runActions (failsAt : SmtpAction → Bool) :
    List SmtpAction → List SmtpAction × Option SmtpAction
  | [] => ([], none)
  | a :: rest =>
    if failsAt a then ([a], some a)
    else (a :: (runActions failsAt rest).1, (runActions failsAt rest).2)

/-- The source's `send_email` (lines 89-98) as a trace: connect with a
30-unit timeout (raising there skips the `try`/`finally` entirely),
then the session body under `try`, with `s.quit()` always executed by
the `finally` once the connection object exists; the second component
is the exception that escapes to the caller (`none` on success —
nothing is caught inside `send_email`). -/
def send_email (host : String) (port : Nat)
    (user pass sender recipient : String)
    (failsAt : SmtpAction → Bool) : List SmtpAction × Option SmtpAction :=
  let conn := SmtpAction.connect host port 30
  if failsAt conn then ([conn], some conn)
  else
    (conn :: ((runActions failsAt (smtpBody port user pass sender recipient)).1 ++
       [SmtpAction.quit]),
     (runActions failsAt (smtpBody port user pass sender recipient)).2)

/-- The process environment values `main` checks on line 101, plus the
parsed `TOP_STARTUPS` list.  A variable that is unset is `none`; Python
truthiness also treats a present-but-empty string as missing. -/
structure Config where
  apiKey : Option String
  cx : Option String
  recipient : Option String
  sender : Option String
  smtpPass : Option String
  tops : List String
deriving DecidableEq, Repr

/-- Python truthiness of an optional string: `None` and `""` are
falsy. -/
def truthy : Option String → Bool
  | none => false
  | some s => !(s == "")

/-- The guard of line 101:
`API_KEY and CX and RECIPIENT and SENDER and SMTP_PASS`. -/
def configOk (c : Config) : Bool :=
  truthy c.apiKey && truthy c.cx && truthy c.recipient &&
    truthy c.sender && truthy c.smtpPass

/-- One externally observable network action of `main`: an HTTP GET for
one query, or the SMTP send of the report. -/
inductive Event where
  | httpCall (q : String)
  | emailSend
deriving DecidableEq, Repr

/-- The per-role query loop of `main` (lines 117-134) with the HTTP
calls it actually issues recorded as events; `respond` gives each
attempted query's outcome.  Mirrors `aggregate` (failed queries are
skipped, the loop breaks at the cap), adding the event trace. -/
def runRole (respond : String → QueryRes) :
    List String → List String → List ResultItem →
    List Event × Option (List String × List ResultItem)
  | [], seen, collected => ([], some (seen, collected))
  | q :: rest, seen, collected =>
    match respond q with
    | QueryRes.failure =>
      (Event.httpCall q :: (runRole respond rest seen collected).1,
       (runRole respond rest seen collected).2)
    | QueryRes.success items =>
      match stepItems seen collected items with
      | none => ([Event.httpCall q], none)
      | some (seen1, collected1) =>
        if MAX_PER_ROLE ≤ collected1.length then
          ([Event.httpCall q], some (seen1, collected1))
        else
          (Event.httpCall q :: (runRole respond rest seen1 collected1).1,
           (runRole respond rest seen1 collected1).2)

/-- The role loop of `main` (lines 104-135): each role gets fresh
`seen`/`collected` state and its built queries; an uncaught exception
inside a role (see `dedupKey`) stops the remaining roles. -/
def runRoles (tops : List String) (respond : String → QueryRes) :
    List String → List Event × Option (List (String × List ResultItem))
  | [] => ([], some [])
  | role :: rest =>
    match runRole respond (buildQueries role tops) [] [] with
    | (evs, none) => (evs, none)
    | (evs, some (_, collected)) =>
      (evs ++ (runRoles tops respond rest).1,
       ((runRoles tops respond rest).2.map (fun m => (role, collected) :: m)))

/-- The source's `main` (lines 100-140): the required-variable guard
raises `SystemExit` with its fixed message before any network call;
otherwise the roles are aggregated, the report rendered, and the email
sent.  First component: the network actions performed, in order; second
component: normal completion or the text of the uncaught exception. -/
def mainRun (c : Config) (now : String) (respond : String → QueryRes) :
    List Event × Except String Unit :=
  if configOk c then
    match runRoles c.tops respond ROLES with
    | (evs, none) => (evs, Except.error "TypeError")
    | (evs, some results) =>
      match build_html_report now results with
      | none => (evs, Except.error "TypeError")
      | some _ => (evs ++ [Event.emailSend], Except.ok ())
  else
    ([], Except.error "Missing required environment variables. See script header.")

/-! ## Theorems -/

theorem buildQueries_foldl (role : String) :
    ∀ (tops : List String) (init : List String),
    tops.foldl (fun qs d =>
        if d.contains '.' then qs ++ [role ++ " site:" ++ d]
        else qs ++ [role ++ " \"" ++ d ++ "\""]) init =
      init ++ tops.map (fun d =>
        if d.contains '.' then role ++ " site:" ++ d
        else role ++ " \"" ++ d ++ "\"") := by
  intro tops
  induction tops with
  | nil => intro init; simp
  | cons d rest ih =>
    intro init
    by_cases h : d.contains '.' <;>
      simp [h, ih, List.append_assoc]

/-- C3: for every role and configured organization list, the query
builder yields exactly one query per organization in order — a `site:`
query when the entry contains a dot, else a quoted-phrase query — then
the three generic queries, in the given order. -/
theorem buildQueries_spec (role : String) (tops : List String) :
    buildQueries role tops =
      tops.map (fun d =>
        if d.contains '.' then role ++ " site:" ++ d
        else role ++ " \"" ++ d ++ "\"") ++
      [role ++ " startup hiring", role ++ " \"we are hiring\"",
       role ++ " \"hiring now\""] := by
  unfold buildQueries
  by_cases h : tops.isEmpty
  · rw [List.isEmpty_iff] at h
    subst h
    simp
  · simp only [h, if_false, Bool.false_eq_true, buildQueries_foldl role tops []]
    simp [List.append_assoc]

/-- C4 counterexample: the dedup key computed on line 125 is not the
title-and-snippet concatenation when the title is absent — the stored
title is `None`, `it.get("title","")` returns that `None`, and
`None + snippet` raises a `TypeError` (modelled by `none`), so the key
the claim predicts is never produced. -/
theorem dedupKey_claim_counterexample :
    dedupKey { title := none, link := none, snippet := "snip" } = none ∧
    claimDedupKey { title := none, link := none, snippet := "snip" } = "snip" ∧
    dedupKey { title := none, link := none, snippet := "snip" } ≠
      some (claimDedupKey { title := none, link := none, snippet := "snip" }) := by
  refine ⟨rfl, rfl, ?_⟩
  decide

/-- C4 amended: the dedup key equals the link when the link is present
and non-empty; otherwise, when the title is present, it equals the
concatenation of title and snippet; when the link is absent or empty
and the title is absent, the key computation raises (`none`) instead of
producing a key. -/
theorem dedupKey_spec (it : ResultItem) :
    (∀ l, it.link = some l → l ≠ "" → dedupKey it = some l) ∧
    ((it.link = none ∨ it.link = some "") → ∀ t, it.title = some t →
      dedupKey it = some (t ++ it.snippet)) ∧
    ((it.link = none ∨ it.link = some "") → it.title = none →
      dedupKey it = none) := by
  obtain ⟨t, l, s⟩ := it
  refine ⟨?_, ?_, ?_⟩
  · intro l0 hl hne
    simp only at hl
    subst hl
    simp [dedupKey, hne]
  · intro hl t0 ht
    simp only at ht
    subst ht
    rcases hl with hl | hl <;> simp only at hl <;> subst hl <;>
      simp [dedupKey]
  · intro hl ht
    simp only at ht
    subst ht
    rcases hl with hl | hl <;> simp only at hl <;> subst hl <;>
      simp [dedupKey]

/-- C4 witness: the amended theorem applied to a concrete item with an
absent link and a present title. -/
theorem dedupKey_spec_witness :
    dedupKey { title := some "t", link := none, snippet := "s" } =
      some ("t" ++ "s") :=
  (dedupKey_spec { title := some "t", link := none, snippet := "s" }).2.1
    (Or.inl rfl) "t" rfl

/-- C10: a parsed response whose `items` field is absent extracts to
the empty list (and so contributes nothing to a role's aggregation
state), and an extracted item's snippet defaults to the empty string
when absent in the raw item. -/
theorem extract_items_defaults :
    (∀ j : SearchJson, j.items = none → extract_items j = []) ∧
    (∀ raw : RawItem, raw.snippet = none → (extractItem raw).snippet = "") ∧
    (∀ (j : SearchJson) (seen : List String) (collected : List ResultItem),
      j.items = none → stepItems seen collected (extract_items j) =
        some (seen, collected)) := by
  refine ⟨?_, ?_, ?_⟩
  · intro j h
    simp [extract_items, h]
  · intro raw h
    simp [extractItem, h]
  · intro j seen collected h
    simp [extract_items, h, stepItems]

/-- C10 witness: the theorem applied to the concrete response with no
`items` field and to a raw item with no snippet. -/
theorem extract_items_defaults_witness :
    extract_items { items := none } = [] ∧
    (extractItem { title := some "t", link := some "l", snippet := none }).snippet = "" :=
  ⟨extract_items_defaults.1 { items := none } rfl,
   extract_items_defaults.2.1 { title := some "t", link := some "l", snippet := none } rfl⟩

/-- C8: a role with an empty aggregated result list renders as a
subheading with count 0 followed by a list holding exactly the single
entry "No results found." — no item entries. -/
theorem renderRole_empty (role : String) :
    renderRole role [] =
      some ("<h3>" ++ htmlEscape role ++
        " — 0 results</h3>\n<ul><li>No results found.</li></ul>") := by
  have h : renderRole role [] =
      some ((((("<h3>" ++ htmlEscape role ++ " — " ++ toString (List.length
        ([] : List ResultItem)) ++ " results</h3>\n<ul>")) ++
        "<li>No results found.</li>") ++ String.join []) ++ "</ul>") := rfl
  rw [h]
  simp only [String.append_assoc]
  congr 1

/-- A configuration in which only the search API key is missing. -/
def cfgNoApi : Config :=
  { apiKey := none, cx := some "x", recipient := some "r",
    sender := some "s", smtpPass := some "p", tops := [] }

/-- A configuration in which only the SMTP password is missing. -/
def cfgNoPass : Config :=
  { apiKey := some "k", cx := some "x", recipient := some "r",
    sender := some "s", smtpPass := none, tops := [] }

/-- C5 counterexample: a configuration missing only the search API key
and one missing only the SMTP password terminate with the identical
fixed diagnostic, so the diagnostic does not report which category of
configuration (search API vs. email/SMTP) is missing. -/
theorem config_diagnostic_counterexample :
    (mainRun cfgNoApi "now" (fun _ => QueryRes.failure)).2 =
      Except.error "Missing required environment variables. See script header." ∧
    (mainRun cfgNoPass "now" (fun _ => QueryRes.failure)).2 =
      Except.error "Missing required environment variables. See script header." ∧
    (mainRun cfgNoApi "now" (fun _ => QueryRes.failure)).1 = [] := by
  refine ⟨rfl, rfl, rfl⟩

/-- C5 amended: whenever the required-variable check of line 101 fails,
the orchestrator performs no network action (no HTTP call, no email)
and terminates with the fixed generic diagnostic — which, contrary to
the claim, does not name the missing category. -/
theorem missing_config_halts (c : Config) (now : String)
    (respond : String → QueryRes) (h : configOk c = false) :
    mainRun c now respond =
      ([], Except.error
        "Missing required environment variables. See script header.") := by
  simp [mainRun, h]

/-- C5 witness: the amended theorem applied to a concrete configuration
missing the search API key. -/
theorem missing_config_halts_witness :
    mainRun cfgNoApi "now" (fun _ => QueryRes.failure) =
      ([], Except.error
        "Missing required environment variables. See script header.") :=
  missing_config_halts cfgNoApi "now" (fun _ => QueryRes.failure) rfl

/-- C7 counterexample: an item with a present-but-empty title renders
the escaped link as anchor text (`it['title'] or it['link']` falls
through on the empty string), not the escaped title as the claim
states. -/
theorem render_anchor_counterexample :
    renderItem { title := some "", link := some "L", snippet := "" } =
      some "<li><a href='L'>L</a><br/><small></small></li>" ∧
    claimRenderItem { title := some "", link := some "L", snippet := "" } =
      some "<li><a href='L'></a><br/><small></small></li>" ∧
    renderItem { title := some "", link := some "L", snippet := "" } ≠
      claimRenderItem { title := some "", link := some "L", snippet := "" } := by
  refine ⟨rfl, rfl, ?_⟩
  decide

/-- C7 amended: the anchor text is the HTML-escaped title when the
title is present and non-empty; when the title is absent or empty the
HTML-escaped link is used instead, and when additionally the link is
absent rendering raises (`html.escape(None)`).  The snippet always
appears HTML-escaped, and the href attribute holds the link verbatim,
unescaped.  The final conjuncts exhibit the escaping itself. -/
theorem render_escapes (it : ResultItem) :
    (∀ t, it.title = some t → t ≠ "" → renderItem it =
      some ("<li><a href='" ++ linkRaw it ++ "'>" ++ htmlEscape t ++
        "</a><br/><small>" ++ htmlEscape it.snippet ++ "</small></li>")) ∧
    (∀ l, (it.title = none ∨ it.title = some "") → it.link = some l →
      renderItem it =
        some ("<li><a href='" ++ l ++ "'>" ++ htmlEscape l ++
          "</a><br/><small>" ++ htmlEscape it.snippet ++ "</small></li>")) ∧
    ((it.title = none ∨ it.title = some "") → it.link = none →
      renderItem it = none) ∧
    htmlEscape "a<b>&c\"" = "a&lt;b&gt;&amp;c&quot;" := by
  obtain ⟨t, l, s⟩ := it
  refine ⟨?_, ?_, ?_, by decide⟩
  · intro t0 ht hne
    simp only at ht
    subst ht
    simp [renderItem, anchorVal, hne]
  · intro l0 ht hl
    simp only at hl
    subst hl
    rcases ht with ht | ht <;> simp only at ht <;> subst ht <;>
      simp [renderItem, anchorVal, linkRaw]
  · intro ht hl
    simp only at hl
    subst hl
    rcases ht with ht | ht <;> simp only at ht <;> subst ht <;>
      simp [renderItem, anchorVal]

/-- C7 witness: the amended theorem applied to a concrete item whose
title and snippet contain markup characters. -/
theorem render_escapes_witness :
    renderItem { title := some "a<b", link := some "L", snippet := "s&t" } =
      some ("<li><a href='" ++
        linkRaw { title := some "a<b", link := some "L", snippet := "s&t" } ++
        "'>" ++ htmlEscape "a<b" ++ "</a><br/><small>" ++
        htmlEscape "s&t" ++ "</small></li>") :=
  (render_escapes { title := some "a<b", link := some "L", snippet := "s&t" }).1
    "a<b" rfl (by decide)

theorem stepItems_length_le (items : List ResultItem) :
    ∀ seen collected seen1 collected1,
    collected.length < MAX_PER_ROLE →
    stepItems seen collected items = some (seen1, collected1) →
    collected1.length ≤ MAX_PER_ROLE := by
  induction items with
  | nil =>
    intro s c s1 c1 hlt h
    simp only [stepItems, Option.some.injEq, Prod.mk.injEq] at h
    obtain ⟨-, hc⟩ := h
    subst hc
    omega
  | cons it rest ih =>
    intro s c s1 c1 hlt h
    cases hk : dedupKey it with
    | none => simp [stepItems, hk] at h
    | some key =>
      simp only [stepItems, hk] at h
      by_cases hmem : key ∈ s
      · rw [if_pos hmem] at h
        exact ih s c s1 c1 hlt h
      · rw [if_neg hmem] at h
        by_cases hcap : MAX_PER_ROLE ≤ (c ++ [it]).length
        · rw [if_pos hcap] at h
          simp only [Option.some.injEq, Prod.mk.injEq] at h
          obtain ⟨-, hc⟩ := h
          subst hc
          simp only [List.length_append, List.length_cons, List.length_nil]
          omega
        · rw [if_neg hcap] at h
          exact ih (s ++ [key]) (c ++ [it]) s1 c1 (by omega) h

theorem aggregate_length_le (qs : List QueryRes) :
    ∀ seen collected seen1 collected1,
    collected.length < MAX_PER_ROLE →
    aggregate seen collected qs = some (seen1, collected1) →
    collected1.length ≤ MAX_PER_ROLE := by
  induction qs with
  | nil =>
    intro s c s1 c1 hlt h
    simp only [aggregate, Option.some.injEq, Prod.mk.injEq] at h
    obtain ⟨-, hc⟩ := h
    subst hc
    omega
  | cons q rest ih =>
    intro s c s1 c1 hlt h
    cases q with
    | failure =>
      simp only [aggregate] at h
      exact ih s c s1 c1 hlt h
    | success items =>
      simp only [aggregate] at h
      cases hstep : stepItems s c items with
      | none => rw [hstep] at h; simp at h
      | some p =>
        obtain ⟨sm, cm⟩ := p
        simp only [hstep] at h
        by_cases hcap : MAX_PER_ROLE ≤ cm.length
        · rw [if_pos hcap] at h
          simp only [Option.some.injEq, Prod.mk.injEq] at h
          obtain ⟨-, hc⟩ := h
          subst hc
          exact stepItems_length_le items s c sm cm hlt hstep
        · rw [if_neg hcap] at h
          exact ih sm cm s1 c1 (by omega) h

theorem aggregate_append (extra : List QueryRes) :
    ∀ (qs : List QueryRes) (seen : List String) (collected : List ResultItem),
    collected.length < MAX_PER_ROLE →
    aggregate seen collected (qs ++ extra) =
      (match aggregate seen collected qs with
       | none => none
       | some (seen1, collected1) =>
         if MAX_PER_ROLE ≤ collected1.length then some (seen1, collected1)
         else aggregate seen1 collected1 extra) := by
  intro qs
  induction qs with
  | nil =>
    intro s c hlt
    simp only [List.nil_append, aggregate]
    rw [if_neg (by omega)]
  | cons q rest ih =>
    intro s c hlt
    cases q with
    | failure =>
      simp only [List.cons_append, aggregate]
      exact ih s c hlt
    | success items =>
      simp only [List.cons_append, aggregate]
      cases hstep : stepItems s c items with
      | none => rfl
      | some p =>
        obtain ⟨sm, cm⟩ := p
        by_cases hcap : MAX_PER_ROLE ≤ cm.length
        · simp only [if_pos hcap]
        · simp only [if_neg hcap]
          exact ih sm cm (by omega)

/-- C2: a role's aggregated result list never exceeds
`MAX_PER_ROLE = 8` entries, for any sequence of query outcomes with any
number of items each; and once the cap is reached the loop has stopped —
any further queries appended to the run leave the result unchanged. -/
theorem role_results_capped :
    (∀ (qs : List QueryRes) (res : List ResultItem),
      aggregateRole qs = some res → res.length ≤ MAX_PER_ROLE) ∧
    (∀ (qs extra : List QueryRes) (res : List ResultItem),
      aggregateRole qs = some res → MAX_PER_ROLE ≤ res.length →
      aggregateRole (qs ++ extra) = some res) := by
  constructor
  · intro qs res h
    unfold aggregateRole at h
    cases hagg : aggregate [] [] qs with
    | none => rw [hagg] at h; simp at h
    | some p =>
      obtain ⟨s1, c1⟩ := p
      rw [hagg] at h
      have hres : c1 = res := by
        simpa using h
      subst hres
      exact aggregate_length_le qs [] [] s1 c1 (by decide) hagg
  · intro qs extra res h hful
    unfold aggregateRole at h ⊢
    cases hagg : aggregate [] [] qs with
    | none => rw [hagg] at h; simp at h
    | some p =>
      obtain ⟨s1, c1⟩ := p
      rw [hagg] at h
      have hres : c1 = res := by
        simpa using h
      subst hres
      rw [aggregate_append extra qs [] [] (by decide), hagg]
      simp [if_pos hful]

/-- A concrete item used by witnesses. -/
def wItem : ResultItem := { title := some "T", link := some "L", snippet := "S" }

/-- A concrete query-outcome list used by witnesses: one successful
query returning the same item twice. -/
def wQs : List QueryRes := [QueryRes.success [wItem, wItem]]

/-- C2 witness: the cap theorem applied to the concrete run `wQs`,
whose aggregation result is `[wItem]`. -/
theorem role_results_capped_witness :
    ([wItem] : List ResultItem).length ≤ MAX_PER_ROLE :=
  role_results_capped.1 wQs [wItem] rfl

theorem stepItems_append (ys : List ResultItem) :
    ∀ (xs : List ResultItem) (seen : List String) (collected : List ResultItem),
    collected.length < MAX_PER_ROLE →
    stepItems seen collected (xs ++ ys) =
      (match stepItems seen collected xs with
       | none => none
       | some (seen1, collected1) =>
         if MAX_PER_ROLE ≤ collected1.length then some (seen1, collected1)
         else stepItems seen1 collected1 ys) := by
  intro xs
  induction xs with
  | nil =>
    intro s c hlt
    simp only [List.nil_append, stepItems]
    rw [if_neg (by omega)]
  | cons it rest ih =>
    intro s c hlt
    simp only [List.cons_append, stepItems]
    cases hk : dedupKey it with
    | none => simp
    | some key =>
      simp only []
      by_cases hmem : key ∈ s
      · rw [if_pos hmem, if_pos hmem]
        exact ih s c hlt
      · rw [if_neg hmem, if_neg hmem]
        by_cases hcap : MAX_PER_ROLE ≤ (c ++ [it]).length
        · have hcap2 : MAX_PER_ROLE ≤ c.length + 1 := by simpa using hcap
          simp [hcap2]
        · rw [if_neg hcap, if_neg hcap]
          exact ih (s ++ [key]) (c ++ [it]) (by omega)

theorem aggregate_eq_stepItems (qs : List QueryRes) :
    ∀ (seen : List String) (collected : List ResultItem),
    collected.length < MAX_PER_ROLE →
    aggregate seen collected qs = stepItems seen collected (stream qs) := by
  induction qs with
  | nil =>
    intro s c _
    rfl
  | cons q rest ih =>
    intro s c hlt
    cases q with
    | failure =>
      simp only [aggregate, stream]
      exact ih s c hlt
    | success items =>
      simp only [aggregate, stream]
      rw [stepItems_append (stream rest) items s c hlt]
      cases hstep : stepItems s c items with
      | none => rfl
      | some p =>
        obtain ⟨s1, c1⟩ := p
        by_cases hcap : MAX_PER_ROLE ≤ c1.length
        · simp only [if_pos hcap]
        · simp only [if_neg hcap]
          exact ih s1 c1 (by omega)

theorem stream_filter (qs : List QueryRes) :
    stream (qs.filter isSucc) = stream qs := by
  induction qs with
  | nil => rfl
  | cons q rest ih =>
    cases q with
    | failure => simpa [List.filter, isSucc, stream] using ih
    | success items => simp [List.filter, isSucc, stream, ih]

theorem stream_replicate_failure (n : Nat) :
    stream (List.replicate n QueryRes.failure) = [] := by
  induction n with
  | zero => rfl
  | succ k ih => simpa [List.replicate, stream] using ih

/-- C6: failed queries are skipped without affecting anything else —
aggregation over any outcome sequence equals aggregation over its
successful outcomes only, and a run of nothing but failures still
completes normally with an empty result list (neither the role nor the
run is aborted). -/
theorem failed_queries_skipped :
    (∀ qs : List QueryRes,
      aggregateRole qs = aggregateRole (qs.filter isSucc)) ∧
    (∀ n : Nat,
      aggregateRole (List.replicate n QueryRes.failure) = some []) := by
  constructor
  · intro qs
    unfold aggregateRole
    rw [aggregate_eq_stepItems qs [] [] (by decide),
      aggregate_eq_stepItems (qs.filter isSucc) [] [] (by decide),
      stream_filter]
  · intro n
    unfold aggregateRole
    rw [aggregate_eq_stepItems _ [] [] (by decide), stream_replicate_failure]
    rfl

theorem runActions_mem (failsAt : SmtpAction → Bool) :
    ∀ (l : List SmtpAction) (a : SmtpAction),
    a ∈ (runActions failsAt l).1 → a ∈ l := by
  intro l
  induction l with
  | nil => intro a h; simp [runActions] at h
  | cons b rest ih =>
    intro a h
    simp only [runActions] at h
    by_cases hb : failsAt b
    · rw [if_pos hb] at h
      simp only [List.mem_singleton] at h
      simp [h]
    · rw [if_neg hb] at h
      rcases List.mem_cons.mp h with h1 | h1
      · simp [h1]
      · exact List.mem_cons_of_mem b (ih a h1)

theorem runActions_noFail (failsAt : SmtpAction → Bool)
    (hf : ∀ a, failsAt a = false) :
    ∀ l : List SmtpAction, runActions failsAt l = (l, none) := by
  intro l
  induction l with
  | nil => rfl
  | cons b rest ih => simp [runActions, hf b, ih]

theorem runActions_some (failsAt : SmtpAction → Bool) :
    ∀ (l : List SmtpAction) (a : SmtpAction),
    (runActions failsAt l).2 = some a → failsAt a = true := by
  intro l
  induction l with
  | nil => intro a h; simp [runActions] at h
  | cons b rest ih =>
    intro a h
    simp only [runActions] at h
    by_cases hb : failsAt b
    · rw [if_pos hb] at h
      simp only at h
      injection h with h2
      rw [← h2]
      exact hb
    · rw [if_neg hb] at h
      exact ih a h

theorem runActions_none (failsAt : SmtpAction → Bool) :
    ∀ l : List SmtpAction, (runActions failsAt l).2 = none →
    ∀ a ∈ l, failsAt a = false := by
  intro l
  induction l with
  | nil => intro _ a ha; simp at ha
  | cons b rest ih =>
    intro h a ha
    simp only [runActions] at h
    by_cases hb : failsAt b
    · rw [if_pos hb] at h
      simp at h
    · rw [if_neg hb] at h
      rcases List.mem_cons.mp ha with h1 | h1
      · rw [h1]
        simpa using hb
      · exact ih h a h1

/-- C9: the mailer upgrades with STARTTLS exactly when the port is 587
(in a fault-free session, and never on another port even with faults);
every `sendmail` it performs goes from the configured sender to exactly
the one configured recipient; once the connection is made, `quit` is
always performed no matter what else fails; a fault-free session ends
without error; every reported error is a genuine failure of an
attempted action; and a session that ends without error had no failing
action in its body — any failure surfaces to the caller. -/
theorem send_email_spec (host : String) (port : Nat)
    (user pass sender recipient : String) (failsAt : SmtpAction → Bool) :
    ((∀ a, failsAt a = false) →
      (SmtpAction.starttls ∈
        (send_email host port user pass sender recipient failsAt).1 ↔
        port = 587)) ∧
    (∀ s rs, SmtpAction.sendmail s rs ∈
        (send_email host port user pass sender recipient failsAt).1 →
      s = sender ∧ rs = [recipient]) ∧
    (failsAt (SmtpAction.connect host port 30) = false →
      SmtpAction.quit ∈
        (send_email host port user pass sender recipient failsAt).1) ∧
    ((∀ a, failsAt a = false) →
      (send_email host port user pass sender recipient failsAt).2 = none) ∧
    (∀ a, (send_email host port user pass sender recipient failsAt).2 = some a →
      failsAt a = true) ∧
    (failsAt (SmtpAction.connect host port 30) = false →
      (send_email host port user pass sender recipient failsAt).2 = none →
      ∀ a ∈ smtpBody port user pass sender recipient, failsAt a = false) := by
  refine ⟨?_, ?_, ?_, ?_, ?_, ?_⟩
  · intro hf
    simp only [send_email, hf (SmtpAction.connect host port 30), if_false,
      Bool.false_eq_true, runActions_noFail failsAt hf]
    by_cases hp : port = 587 <;> simp [smtpBody, hp]
  · intro s rs hmem
    simp only [send_email] at hmem
    by_cases hc : failsAt (SmtpAction.connect host port 30)
    · rw [if_pos hc] at hmem
      simp at hmem
    · rw [if_neg hc] at hmem
      rcases List.mem_cons.mp hmem with h1 | h1
      · simp at h1
      · rcases List.mem_append.mp h1 with h2 | h2
        · have hbody := runActions_mem failsAt _ _ h2
          by_cases hp : port = 587 <;> simp [smtpBody, hp] at hbody <;>
            exact ⟨hbody.1, hbody.2⟩
        · simp at h2
  · intro hc
    simp [send_email, hc]
  · intro hf
    simp [send_email, hf (SmtpAction.connect host port 30),
      runActions_noFail failsAt hf]
  · intro a h
    simp only [send_email] at h
    by_cases hc : failsAt (SmtpAction.connect host port 30)
    · rw [if_pos hc] at h
      simp only at h
      injection h with h2
      rw [← h2]
      exact hc
    · rw [if_neg hc] at h
      exact runActions_some failsAt _ a h
  · intro hc h
    simp only [send_email, hc, Bool.false_eq_true, if_false] at h
    exact runActions_none failsAt _ h

/-- C9 witness: in a fault-free session on port 587 the trace contains
the STARTTLS upgrade. -/
theorem send_email_spec_witness :
    SmtpAction.starttls ∈
      (send_email "smtp.gmail.com" 587 "u" "p" "s" "r" (fun _ => false)).1 :=
  ((send_email_spec "smtp.gmail.com" 587 "u" "p" "s" "r" (fun _ => false)).1
    (fun _ => rfl)).mpr rfl

theorem dedupKey_link {it : ResultItem} {l : String} (hne : l ≠ "")
    (hl : it.link = some l) : dedupKey it = some l := by
  simp [dedupKey, hl, hne]

theorem stepItems_spec (items : List ResultItem) :
    ∀ seen collected seen1 collected1,
    stepItems seen collected items = some (seen1, collected1) →
    ∃ newly, collected1 = collected ++ newly ∧ seen1 = seen ++ keysOf newly ∧
      newly.Sublist items ∧ (keysOf newly).Nodup ∧
      (∀ it ∈ newly, ∃ k, dedupKey it = some k ∧ k ∉ seen ∧
        ∃ pre suf, items = pre ++ it :: suf ∧
          ∀ x ∈ pre, dedupKey x ≠ some k) := by
  induction items with
  | nil =>
    intro s c s1 c1 h
    simp only [stepItems, Option.some.injEq, Prod.mk.injEq] at h
    obtain ⟨hs, hc⟩ := h
    subst hs
    subst hc
    exact ⟨[], by simp, by simp [keysOf], List.nil_sublist _,
      by simp [keysOf], by simp⟩
  | cons it rest ih =>
    intro s c s1 c1 h
    cases hk : dedupKey it with
    | none => simp [stepItems, hk] at h
    | some key =>
      simp only [stepItems, hk] at h
      by_cases hmem : key ∈ s
      · rw [if_pos hmem] at h
        obtain ⟨newly, hc, hs, hsub, hnd, hall⟩ := ih s c s1 c1 h
        refine ⟨newly, hc, hs, hsub.cons it, hnd, ?_⟩
        intro x hx
        obtain ⟨k, hk2, hkn, pre, suf, hsplit, hpre⟩ := hall x hx
        refine ⟨k, hk2, hkn, it :: pre, suf, by rw [hsplit, List.cons_append], ?_⟩
        intro y hy
        rcases List.mem_cons.mp hy with h1 | h1
        · subst h1
          rw [hk]
          intro contra
          injection contra with contra2
          rw [contra2] at hmem
          exact hkn hmem
        · exact hpre y h1
      · rw [if_neg hmem] at h
        by_cases hcap : MAX_PER_ROLE ≤ (c ++ [it]).length
        · rw [if_pos hcap] at h
          simp only [Option.some.injEq, Prod.mk.injEq] at h
          obtain ⟨hs, hc⟩ := h
          refine ⟨[it], ?_, ?_, ?_, ?_, ?_⟩
          · rw [← hc]
          · rw [← hs]
            simp [keysOf, hk]
          · exact List.Sublist.cons₂ it (List.nil_sublist rest)
          · simp [keysOf, hk]
          · intro x hx
            simp only [List.mem_singleton] at hx
            subst hx
            exact ⟨key, hk, hmem, [], rest, rfl, by simp⟩
        · rw [if_neg hcap] at h
          obtain ⟨newly, hc, hs, hsub, hnd, hall⟩ :=
            ih (s ++ [key]) (c ++ [it]) s1 c1 h
          have hkeys : keysOf (it :: newly) = key :: keysOf newly := by
            simp [keysOf, hk]
          refine ⟨it :: newly, ?_, ?_, ?_, ?_, ?_⟩
          · simp [hc, List.append_assoc]
          · simp [hs, hkeys, List.append_assoc]
          · exact hsub.cons₂ it
          · rw [hkeys]
            refine List.nodup_cons.mpr ⟨?_, hnd⟩
            intro hkey_in
            simp only [keysOf] at hkey_in
            obtain ⟨x, hxmem, hxkey⟩ := List.mem_filterMap.mp hkey_in
            obtain ⟨k2, hk2, hkn2, -⟩ := hall x hxmem
            rw [hk2] at hxkey
            injection hxkey with he
            subst he
            exact hkn2 (by simp)
          · intro x hx
            rcases List.mem_cons.mp hx with h1 | h1
            · subst h1
              exact ⟨key, hk, hmem, [], rest, rfl, by simp⟩
            · obtain ⟨k2, hk2, hkn2, pre, suf, hsplit, hpre⟩ := hall x h1
              refine ⟨k2, hk2, fun hin => hkn2 (List.mem_append_left _ hin),
                it :: pre, suf, by rw [hsplit, List.cons_append], ?_⟩
              intro y hy
              rcases List.mem_cons.mp hy with h2 | h2
              · subst h2
                rw [hk]
                intro contra
                injection contra with c2
                subst c2
                exact hkn2 (by simp)
              · exact hpre y h2

theorem countP_le_one_of_nodup_keys (l : String) :
    ∀ res : List ResultItem, (keysOf res).Nodup →
    (∀ it ∈ res, it.link = some l → dedupKey it = some l) →
    List.countP (fun x => x.link == some l) res ≤ 1 := by
  intro res
  induction res with
  | nil =>
    intro _ _
    simp
  | cons a rest ih =>
    intro hnd hkey
    rw [List.countP_cons]
    by_cases hp : a.link = some l
    · have hka : dedupKey a = some l := hkey a (by simp) hp
      have hkl : keysOf (a :: rest) = l :: keysOf rest := by simp [keysOf, hka]
      rw [hkl] at hnd
      have hnotin := (List.nodup_cons.mp hnd).1
      have hzero : List.countP (fun x => x.link == some l) rest = 0 := by
        rw [List.countP_eq_zero]
        intro x hx hpx
        have hlx : x.link = some l := by simpa using hpx
        refine hnotin ?_
        simp only [keysOf]
        exact List.mem_filterMap.mpr ⟨x, hx, hkey x (by simp [hx]) hlx⟩
      simp [hp, hzero]
    · have hp2 : (a.link == some l) = false := by simpa using hp
      rw [hp2]
      have hnd2 : (keysOf rest).Nodup := by
        cases hka : dedupKey a with
        | none =>
          have he : keysOf (a :: rest) = keysOf rest := by simp [keysOf, hka]
          rwa [he] at hnd
        | some k =>
          have he : keysOf (a :: rest) = k :: keysOf rest := by
            simp [keysOf, hka]
          rw [he] at hnd
          exact (List.nodup_cons.mp hnd).2
      have hrec := ih hnd2 (fun it h1 h2 => hkey it (by simp [h1]) h2)
      simpa using hrec

theorem find?_append_first {α : Type} (p : α → Bool) (it : α) :
    ∀ (pre suf : List α), (∀ x ∈ pre, p x = false) → p it = true →
    List.find? p (pre ++ it :: suf) = some it := by
  intro pre
  induction pre with
  | nil =>
    intro suf _ hp
    simp only [List.nil_append]
    exact List.find?_cons_of_pos _ hp
  | cons y pre2 ih =>
    intro suf hpre hp
    rw [List.cons_append,
      List.find?_cons_of_neg _ (by simp [hpre y (by simp)])]
    exact ih suf (fun x hx => hpre x (by simp [hx])) hp

/-- C1: in a role's completed aggregation, the collected list is a
subsequence of the successful queries' item stream (first-seen order);
for each non-empty link at most one collected item carries it; and any
collected item carrying a non-empty link is the first occurrence of
that link in the stream, in query order then item order. -/
theorem dedup_first_per_link (qs : List QueryRes) (res : List ResultItem)
    (h : aggregateRole qs = some res) :
    res.Sublist (stream qs) ∧
    (∀ l : String, l ≠ "" →
      List.countP (fun x => x.link == some l) res ≤ 1) ∧
    (∀ it ∈ res, ∀ l : String, it.link = some l → l ≠ "" →
      (stream qs).find? (fun x => x.link == some l) = some it) := by
  unfold aggregateRole at h
  cases hagg : aggregate [] [] qs with
  | none =>
    rw [hagg] at h
    simp at h
  | some p =>
    obtain ⟨s1, c1⟩ := p
    rw [hagg] at h
    have hres : c1 = res := by simpa using h
    subst hres
    rw [aggregate_eq_stepItems qs [] [] (by decide)] at hagg
    obtain ⟨newly, hc, hs, hsub, hnd, hall⟩ :=
      stepItems_spec (stream qs) [] [] s1 c1 hagg
    have hnc : c1 = newly := by simpa using hc
    subst hnc
    refine ⟨hsub, ?_, ?_⟩
    · intro l hl
      refine countP_le_one_of_nodup_keys l c1 hnd ?_
      intro it hit hlink
      exact dedupKey_link hl hlink
    · intro it hit l hlink hl
      obtain ⟨k, hk, hkn, pre, suf, hsplit, hpre⟩ := hall it hit
      have hkl : dedupKey it = some l := dedupKey_link hl hlink
      rw [hk] at hkl
      injection hkl with hkl2
      subst hkl2
      rw [hsplit]
      apply find?_append_first
      · intro x hx
        cases hpx : (x.link == some k) with
        | false => rfl
        | true =>
          exfalso
          have hlx : x.link = some k := by simpa using hpx
          exact hpre x hx (dedupKey_link hl hlx)
      · simpa using hlink

/-- C1 witness: the theorem applied to the concrete run `wQs`, whose
aggregation result is `[wItem]`. -/
theorem dedup_first_per_link_witness :
    ([wItem] : List ResultItem).Sublist (stream wQs) ∧
    (∀ l : String, l ≠ "" →
      List.countP (fun x => x.link == some l) [wItem] ≤ 1) ∧
    (∀ it ∈ ([wItem] : List ResultItem), ∀ l : String,
      it.link = some l → l ≠ "" →
      (stream wQs).find? (fun x => x.link == some l) = some it) :=
  dedup_first_per_link wQs [wItem] rfl

end JobsSearch
